import Mathlib

/-!
Verification development for the VEX skills tracker
(`src/vex_skills_tracker.py`).

The Python source is shallowly embedded: each relevant function is
translated into an executable Lean definition, with Python's
insertion-ordered dictionaries modelled as association lists (lookup by
key, in-place update at the key's position, append on first insertion),
Python's stable `sorted` modelled by `List.mergeSort`, and the
network-facing retry/pagination loops modelled as pure functions over a
"script" of server responses together with an explicit trace of the
requests issued and the sleeps performed.
-/

/-! ### Constants (module header of the source) -/

def MAX_RETRIES : Nat := 3

def PER_PAGE : Nat := 250

/-! ### Data model

A skills run as consumed by `aggregate_skills`: the fields read from the
raw JSON record (`run["team"]["id"]`, `run["team"]["name"]`,
`run["event"]["id"]`, `run["event"]["name"]`, `run["type"]`,
`run["score"]`). -/

structure SkillsRun where
  teamId : Nat
  teamName : String
  eventId : Nat
  eventName : String
  type : String
  score : Nat
  deriving Repr, DecidableEq

/-- One value of the `team_event` dictionary in `aggregate_skills`:
the per-(team, event) record holding the best driver and best
programming score seen so far. -/
structure TeamEventBest where
  team_id : Nat
  team_number : String
  event_id : Nat
  event_name : String
  driver : Nat
  programming : Nat
  deriving Repr, DecidableEq

/-- One value of the `best_per_team` dictionary in `aggregate_skills`. -/
structure BestEntry where
  team_id : Nat
  team_number : String
  event_name : String
  driver : Nat
  programming : Nat
  combined : Nat
  deriving Repr, DecidableEq

/-- A leaderboard entry after rank assignment.  `bubble_rank` models the
`"bubble_rank"` key that `main` later adds to the same dictionary
object (absent = `none`). -/
structure LeaderboardEntry where
  team_id : Nat
  team_number : String
  event_name : String
  driver : Nat
  programming : Nat
  combined : Nat
  rank : Nat
  bubble_rank : Option Nat
  deriving Repr, DecidableEq

/-! ### aggregate_skills (lines 151-212) -/

/-- The dictionary key used by the first grouping pass. -/
def runKey (r : SkillsRun) : Nat × Nat := (r.teamId, r.eventId)

/-- The fresh `team_event` record created on first sight of a key. -/
def blankGroup (r : SkillsRun) : TeamEventBest :=
  { team_id := r.teamId, team_number := r.teamName,
    event_id := r.eventId, event_name := r.eventName,
    driver := 0, programming := 0 }

/-- Lines 180-185: keep the highest score per run type at this event;
a run type other than "driver" and "programming" updates nothing. -/
def applyRun (r : SkillsRun) (g : TeamEventBest) : TeamEventBest :=
  if r.type = "driver" then { g with driver := max g.driver r.score }
  else if r.type = "programming" then
    { g with programming := max g.programming r.score }
  else g

/-- One iteration of the grouping loop (lines 161-185) over the
association-list model of the `team_event` dictionary. -/
def insertRun (acc : List ((Nat × Nat) × TeamEventBest)) (r : SkillsRun) :
    List ((Nat × Nat) × TeamEventBest) :=
  if runKey r ∈ acc.map Prod.fst then
    acc.map (fun p => if p.1 = runKey r then (p.1, applyRun r p.2) else p)
  else
    acc ++ [(runKey r, applyRun r (blankGroup r))]

/-- The `team_event` dictionary after the whole grouping pass, as an
association list in insertion order. -/
def teamEventGroups (runs : List SkillsRun) :
    List ((Nat × Nat) × TeamEventBest) :=
  runs.foldl insertRun []

/-- The `best_per_team` record built from one (team, event) group
(lines 195-202). -/
def toBest (g : TeamEventBest) : BestEntry :=
  { team_id := g.team_id, team_number := g.team_number,
    event_name := g.event_name, driver := g.driver,
    programming := g.programming, combined := g.driver + g.programming }

/-- One iteration of the best-per-team loop (lines 188-202): replace a
team's record only when the new combined score is strictly higher;
insert at the end on first sight of a team. -/
def insertBest (acc : List (Nat × BestEntry)) (g : TeamEventBest) :
    List (Nat × BestEntry) :=
  match acc.find? (fun p => p.1 = g.team_id) with
  | none => acc ++ [(g.team_id, toBest g)]
  | some p =>
    if g.driver + g.programming > p.2.combined then
      acc.map (fun q => if q.1 = g.team_id then (q.1, toBest g) else q)
    else acc

/-- The `best_per_team` dictionary, as an association list in insertion
order (iteration over `team_event.items()` is insertion order). -/
def bestPerTeam (runs : List SkillsRun) : List (Nat × BestEntry) :=
  ((teamEventGroups runs).map Prod.snd).foldl insertBest []

/-- The comparison underlying `sorted(..., key=lambda x: (-x["combined"],
-x["programming"]))`: `a` may precede `b` iff `a`'s key tuple is ≤
`b`'s, i.e. combined descending then programming descending. -/
def lbLE (a b : BestEntry) : Bool :=
  decide (b.combined < a.combined ∨
    (a.combined = b.combined ∧ b.programming ≤ a.programming))

/-- Rank assignment (lines 209-210): the entry with its `"rank"` key set. -/
def withRank (i : Nat) (b : BestEntry) : LeaderboardEntry :=
  { team_id := b.team_id, team_number := b.team_number,
    event_name := b.event_name, driver := b.driver,
    programming := b.programming, combined := b.combined,
    rank := i, bubble_rank := none }

/-- The sorted leaderboard before rank assignment (line 205-207). -/
def sortedBoard (runs : List SkillsRun) : List BestEntry :=
  ((bestPerTeam runs).map Prod.snd).mergeSort lbLE

/-- Lines 151-212: the full aggregation pipeline producing the ranked
leaderboard. -/
def aggregate_skills (runs : List SkillsRun) : List LeaderboardEntry :=
  (sortedBoard runs).enum.map (fun p => withRank (p.1 + 1) p.2)

/-- The best driver score of team `t` at event `e` among `runs`
(0 when there is no driver run there), for stating what the grouping
pass computes. -/
def driverMax (runs : List SkillsRun) (t e : Nat) : Nat :=
  (runs.filter (fun r =>
    decide (r.teamId = t ∧ r.eventId = e ∧ r.type = "driver"))).foldl
    (fun m r => max m r.score) 0

/-- The best programming score of team `t` at event `e` among `runs`. -/
def progMax (runs : List SkillsRun) (t e : Nat) : Nat :=
  (runs.filter (fun r =>
    decide (r.teamId = t ∧ r.eventId = e ∧ r.type = "programming"))).foldl
    (fun m r => max m r.score) 0

/-- A leaderboard entry with its rank and bubble-rank fields forgotten,
for relating output entries back to `best_per_team` records. -/
def stripEntry (e : LeaderboardEntry) : BestEntry :=
  { team_id := e.team_id, team_number := e.team_number,
    event_name := e.event_name, driver := e.driver,
    programming := e.programming, combined := e.combined }

/-- The (team, event) groups of one team, in the insertion order of the
`team_event` dictionary. -/
def teamGroups (runs : List SkillsRun) (t : Nat) : List TeamEventBest :=
  ((teamEventGroups runs).map Prod.snd).filter (fun g => decide (g.team_id = t))

/-- Combined score of a (team, event) group. -/
def comb (g : TeamEventBest) : Nat := g.driver + g.programming

/-! ### Qualification filter (main, lines 737-742) -/

/-- Line 737-738: the list comprehension keeping teams whose id is not
in `qualified_team_ids`. -/
def nonQualified (leaderboard : List LeaderboardEntry) (qualified : List Nat) :
    List LeaderboardEntry :=
  leaderboard.filter (fun t => decide (t.team_id ∉ qualified))

/-- Lines 740-742 as seen through `non_qualified`: each remaining entry
with its `"bubble_rank"` key set to its 1-based position. -/
def bubbleList (leaderboard : List LeaderboardEntry) (qualified : List Nat) :
    List LeaderboardEntry :=
  (nonQualified leaderboard qualified).enum.map
    (fun p => { p.2 with bubble_rank := some (p.1 + 1) })

/-- Lines 740-742 as seen through `leaderboard` itself: the entries of
`non_qualified` are the same dictionary objects as in `leaderboard`, so
setting `entry["bubble_rank"]` is visible through the original list.
`j` counts the non-qualified entries already passed. -/
def bubbleLeaderboard (qualified : List Nat) :
    List LeaderboardEntry → Nat → List LeaderboardEntry
  | [], _ => []
  | e :: rest, j =>
    if e.team_id ∈ qualified then e :: bubbleLeaderboard qualified rest j
    else { e with bubble_rank := some (j + 1) } ::
      bubbleLeaderboard qualified rest (j + 1)

/-- The state of the `leaderboard` list after the Step-6 mutation loop. -/
def leaderboardAfterFilter (leaderboard : List LeaderboardEntry)
    (qualified : List Nat) : List LeaderboardEntry :=
  bubbleLeaderboard qualified leaderboard 0

/-- Forgets the `bubble_rank` field, i.e. views a (possibly mutated)
entry as a plain `LeaderboardEntry` of the data model. -/
def eraseBubble (e : LeaderboardEntry) : LeaderboardEntry :=
  { e with bubble_rank := none }

/-! ### get_active_season (lines 103-113) -/

structure Season where
  id : Nat
  name : String
  deriving Repr, DecidableEq

/-- Lines 103-113: `data.get("data", [])`; raise when empty; otherwise
return `seasons[-1]`. The argument is the `"data"` field of the parsed
response (`none` when the field is absent). -/
def get_active_season (respData : Option (List Season)) :
    Except String Season :=
  let seasons := respData.getD []
  if h : seasons = [] then Except.error "No active V5RC season found!"
  else Except.ok (seasons.getLast h)

/-! ### RobotEventsAPI._get (lines 49-70)

The HTTP layer is modelled by a script assigning to every request index
the outcome the server produces: a 2xx response with a JSON body, a 429
response with an optional integer Retry-After header, or anything that
raises `requests.exceptions.RequestException` (connection failure or a
non-2xx, non-429 status via `raise_for_status`). -/

inductive HttpOutcome (α : Type) where
  | success (body : α)
  | rateLimited (retryAfter : Option Nat)
  | failure
  deriving Repr, DecidableEq

/-- How `_get` returns to its caller: a JSON body, a propagated
exception (`raise`), or the `return {}` fallthrough after the `for` loop
is exhausted. -/
inductive GetOutcome (α : Type) where
  | ok (body : α)
  | raised
  | emptyDict
  deriving Repr, DecidableEq

/-- Observable effects of one `_get` call: number of HTTP requests
issued, number of `RATE_LIMIT_DELAY` pacing sleeps, and the list of
explicit waits (429 Retry-After waits and `2 ** attempt` backoffs) in
the order they are slept, in whole seconds. -/
structure Trace where
  requests : Nat
  pacing : Nat
  waits : List Nat
  deriving Repr, DecidableEq

/-- The body of the `for attempt in range(MAX_RETRIES)` loop.  `fuel` is
the number of loop iterations still available (so `attempt` together
with `fuel + attempt = MAX_RETRIES` tracks the Python loop variable);
`req` indexes into the script.  A 429 sleeps the Retry-After value
(default 30) and `continue`s — consuming an iteration; a failure sleeps
`2 ** attempt` and retries unless this was the last iteration, in which
case it re-raises; when the loop ends without returning, `_get` returns
the empty dict. -/
def getAux {α : Type} (script : Nat → HttpOutcome α) :
    Nat → Nat → Nat → Trace → GetOutcome α × Trace
  | 0, _, _, tr => (GetOutcome.emptyDict, tr)
  | fuel + 1, attempt, req, tr =>
    let tr1 : Trace :=
      { requests := tr.requests + 1, pacing := tr.pacing + 1,
        waits := tr.waits }
    match script req with
    | HttpOutcome.success body => (GetOutcome.ok body, tr1)
    | HttpOutcome.rateLimited ra =>
      getAux script fuel (attempt + 1) (req + 1)
        { tr1 with waits := tr1.waits ++ [ra.getD 30] }
    | HttpOutcome.failure =>
      if fuel = 0 then (GetOutcome.raised, tr1)
      else
        getAux script fuel (attempt + 1) (req + 1)
          { tr1 with waits := tr1.waits ++ [2 ^ attempt] }

/-- Lines 49-70: one `_get` call against the given response script. -/
def apiGet {α : Type} (script : Nat → HttpOutcome α) : GetOutcome α × Trace :=
  getAux script MAX_RETRIES 0 0 ⟨0, 0, []⟩

/-! ### RobotEventsAPI._get_all_pages (lines 72-101) -/

/-- The `meta` object of a paginated response; each field may be absent. -/
structure PageMeta where
  current_page : Option Nat
  last_page : Option Nat
  total : Option Nat
  deriving Repr, DecidableEq

/-- One parsed page envelope: `data` and `meta` may each be absent. -/
structure ApiPage (α : Type) where
  data : Option (List α)
  meta : Option PageMeta
  deriving Repr, DecidableEq

/-- The `while True` pagination loop, against a server modelled as a
function from the requested `page` parameter to the response envelope.
`fuel` bounds the number of iterations so the function is total; `none`
means the loop would still be running after `fuel` requests. -/
def getAllPagesAux {α : Type} (server : Nat → ApiPage α) :
    Nat → Nat → List α → Option (List α)
  | 0, _, _ => none
  | fuel + 1, page, acc =>
    let result := server page
    let pageData := result.data.getD []
    let meta := result.meta.getD ⟨none, none, none⟩
    let acc2 := acc ++ pageData
    let current := meta.current_page.getD 1
    let lastPage := meta.last_page.getD 1
    if current ≥ lastPage then some acc2
    else getAllPagesAux server fuel (current + 1) acc2

/-- Lines 72-101: paginate starting from `params["page"] = 1`. -/
def getAllPages {α : Type} (server : Nat → ApiPage α) (fuel : Nat) :
    Option (List α) :=
  getAllPagesAux server fuel 1 []

/-- The payload a page contributes: its `data` list, or `[]` when the
`data` field is absent. -/
def pageData {α : Type} (server : Nat → ApiPage α) (p : Nat) : List α :=
  (server p).data.getD []

/-- The position in `runs` of the first run carrying key `k` (the list
length when no run does). -/
def firstIdx (runs : List SkillsRun) (k : Nat × Nat) : Nat :=
  runs.findIdx (fun r => decide (runKey r = k))

/-- Predicate stating that `b` is the record of the first group
attaining the maximum combined score in `gs`: every earlier group is
strictly worse, every later group is no better. -/
def isFirstMax (gs : List TeamEventBest) (b : BestEntry) : Prop :=
  ∃ gsPre g gsPost, gs = gsPre ++ g :: gsPost ∧ toBest g = b ∧
    (∀ g' ∈ gsPre, comb g' < comb g) ∧ (∀ g' ∈ gsPost, comb g' ≤ comb g)

/-! ### Concrete scenarios from the specification -/

def c1Runs : List SkillsRun := [⟨200, "200B", 1, "E1", "programming", 70⟩]

def c2Runs : List SkillsRun :=
  [⟨100, "100A", 1, "E1", "driver", 50⟩,
   ⟨100, "100A", 1, "E1", "programming", 40⟩,
   ⟨100, "100A", 2, "E2", "driver", 60⟩,
   ⟨100, "100A", 2, "E2", "programming", 20⟩]

def c3Runs : List SkillsRun :=
  [⟨1, "A", 1, "E1", "driver", 50⟩,
   ⟨2, "B", 1, "E1", "programming", 50⟩,
   ⟨3, "C", 2, "E2", "driver", 50⟩]

def c6Server : Nat → ApiPage Nat := fun p =>
  { data := if p = 1 then some [10, 20] else none,
    meta := some ⟨some p, some 2, some 999⟩ }

def c7Board : List LeaderboardEntry :=
  [⟨1, "A", "E", 10, 0, 10, 1, none⟩, ⟨2, "B", "E", 5, 0, 5, 2, none⟩]

def c9Board : List LeaderboardEntry :=
  [⟨1, "A", "E", 10, 0, 10, 1, none⟩, ⟨2, "B", "E", 5, 0, 5, 2, none⟩]

def c10Runs : List SkillsRun := [⟨300, "300C", 1, "E1", "mixed", 55⟩]


/-! ### Helper lemmas: the grouping pass -/

theorem applyRun_team_id (r : SkillsRun) (g : TeamEventBest) :
    (applyRun r g).team_id = g.team_id := by
  unfold applyRun; split_ifs <;> rfl

theorem applyRun_event_id (r : SkillsRun) (g : TeamEventBest) :
    (applyRun r g).event_id = g.event_id := by
  unfold applyRun; split_ifs <;> rfl

theorem applyRun_driver (r : SkillsRun) (g : TeamEventBest) :
    (applyRun r g).driver =
      if r.type = "driver" then max g.driver r.score else g.driver := by
  unfold applyRun; split_ifs <;> rfl

theorem applyRun_programming (r : SkillsRun) (g : TeamEventBest) :
    (applyRun r g).programming =
      if r.type = "programming" then max g.programming r.score
      else g.programming := by
  unfold applyRun; split_ifs with h1 h2 <;> first | rfl | simp_all

theorem teamEventGroups_append (runs : List SkillsRun) (r : SkillsRun) :
    teamEventGroups (runs ++ [r]) = insertRun (teamEventGroups runs) r := by
  simp [teamEventGroups]

theorem driverMax_append (runs : List SkillsRun) (r : SkillsRun) (t e : Nat) :
    driverMax (runs ++ [r]) t e =
      if r.teamId = t ∧ r.eventId = e ∧ r.type = "driver" then
        max (driverMax runs t e) r.score
      else driverMax runs t e := by
  simp only [driverMax, List.filter_append]
  by_cases h : r.teamId = t ∧ r.eventId = e ∧ r.type = "driver" <;>
    simp [h]

theorem progMax_append (runs : List SkillsRun) (r : SkillsRun) (t e : Nat) :
    progMax (runs ++ [r]) t e =
      if r.teamId = t ∧ r.eventId = e ∧ r.type = "programming" then
        max (progMax runs t e) r.score
      else progMax runs t e := by
  simp only [progMax, List.filter_append]
  by_cases h : r.teamId = t ∧ r.eventId = e ∧ r.type = "programming" <;>
    simp [h]

theorem driverMax_eq_zero {runs : List SkillsRun} {t e : Nat}
    (h : ∀ r ∈ runs, ¬(r.teamId = t ∧ r.eventId = e ∧ r.type = "driver")) :
    driverMax runs t e = 0 := by
  unfold driverMax
  rw [List.filter_eq_nil_iff.mpr]
  · rfl
  · intro a ha
    simp only [decide_eq_true_eq]
    exact h a ha

theorem progMax_eq_zero {runs : List SkillsRun} {t e : Nat}
    (h : ∀ r ∈ runs, ¬(r.teamId = t ∧ r.eventId = e ∧ r.type = "programming")) :
    progMax runs t e = 0 := by
  unfold progMax
  rw [List.filter_eq_nil_iff.mpr]
  · rfl
  · intro a ha
    simp only [decide_eq_true_eq]
    exact h a ha

theorem teamEventGroups_spec (runs : List SkillsRun) :
    ((teamEventGroups runs).map Prod.fst).Nodup ∧
    (∀ r ∈ runs, runKey r ∈ (teamEventGroups runs).map Prod.fst) ∧
    (∀ k ∈ (teamEventGroups runs).map Prod.fst, ∃ r ∈ runs, runKey r = k) ∧
    (∀ p ∈ teamEventGroups runs,
      p.2.team_id = p.1.1 ∧ p.2.event_id = p.1.2 ∧
      p.2.driver = driverMax runs p.1.1 p.1.2 ∧
      p.2.programming = progMax runs p.1.1 p.1.2) := by
  induction runs using List.reverseRecOn with
  | nil => simp [teamEventGroups]
  | append_singleton rs r ih =>
    obtain ⟨hnd, hcov, hconv, hfields⟩ := ih
    rw [teamEventGroups_append]
    unfold insertRun
    by_cases hk : runKey r ∈ (teamEventGroups rs).map Prod.fst
    · -- the key already exists: in-place update at that key
      rw [if_pos hk]
      have keyseq :
          ((teamEventGroups rs).map
            (fun p => if p.1 = runKey r then (p.1, applyRun r p.2) else p)).map
              Prod.fst = (teamEventGroups rs).map Prod.fst := by
        rw [List.map_map]
        apply List.map_congr_left
        intro p _
        by_cases h : p.1 = runKey r <;> simp [h]
      refine ⟨by rw [keyseq]; exact hnd, ?_, ?_, ?_⟩
      · intro r' hr'
        rcases List.mem_append.1 hr' with h | h
        · rw [keyseq]; exact hcov r' h
        · rw [keyseq]
          rcases List.mem_singleton.1 h with rfl
          exact hk
      · intro k hkmem
        rw [keyseq] at hkmem
        obtain ⟨r', hr', hkey⟩ := hconv k hkmem
        exact ⟨r', List.mem_append_left _ hr', hkey⟩
      · intro p hp
        obtain ⟨q, hq, hpq⟩ := List.mem_map.1 hp
        by_cases hqk : q.1 = runKey r
        · rw [if_pos hqk] at hpq
          obtain ⟨ht, he, hd, hpr⟩ := hfields q hq
          subst hpq
          refine ⟨?_, ?_, ?_, ?_⟩
          · simpa [applyRun_team_id] using ht
          · simpa [applyRun_event_id] using he
          · rw [applyRun_driver, driverMax_append, hd]
            have h1 : r.teamId = q.1.1 := by rw [hqk] at *; rfl
            have h2 : r.eventId = q.1.2 := by rw [hqk] at *; rfl
            by_cases hty : r.type = "driver"
            · simp [h1, h2, hty]
            · simp [h1, h2, hty]
          · rw [applyRun_programming, progMax_append, hpr]
            have h1 : r.teamId = q.1.1 := by rw [hqk] at *; rfl
            have h2 : r.eventId = q.1.2 := by rw [hqk] at *; rfl
            by_cases hty : r.type = "programming"
            · simp [h1, h2, hty]
            · simp [h1, h2, hty]
        · rw [if_neg hqk] at hpq
          subst hpq
          obtain ⟨ht, he, hd, hpr⟩ := hfields q hq
          have hcond : ¬(r.teamId = q.1.1 ∧ r.eventId = q.1.2) := by
            intro ⟨h1, h2⟩
            apply hqk
            have : runKey r = (q.1.1, q.1.2) := by
              simp [runKey, h1, h2]
            rw [this]
          refine ⟨ht, he, ?_, ?_⟩
          · rw [driverMax_append, if_neg (by tauto), hd]
          · rw [progMax_append, if_neg (by tauto), hpr]
    · -- fresh key: append a new group
      rw [if_neg hk]
      have hnorun : ∀ r' ∈ rs,
          ¬(r'.teamId = r.teamId ∧ r'.eventId = r.eventId) := by
        intro r' hr' ⟨h1, h2⟩
        apply hk
        have : runKey r = runKey r' := by simp [runKey, h1, h2]
        rw [this]
        exact hcov r' hr'
      refine ⟨?_, ?_, ?_, ?_⟩
      · rw [List.map_append]
        rw [List.nodup_append]
        refine ⟨hnd, List.nodup_singleton _, ?_⟩
        intro a ha hb
        rcases List.mem_singleton.1 hb with rfl
        exact hk ha
      · intro r' hr'
        rw [List.map_append]
        rcases List.mem_append.1 hr' with h | h
        · exact List.mem_append_left _ (hcov r' h)
        · rcases List.mem_singleton.1 h with rfl
          exact List.mem_append_right _ (by simp)
      · intro k hkmem
        rw [List.map_append] at hkmem
        rcases List.mem_append.1 hkmem with h | h
        · obtain ⟨r', hr', hkey⟩ := hconv k h
          exact ⟨r', List.mem_append_left _ hr', hkey⟩
        · rcases List.mem_singleton.1 h with rfl
          exact ⟨r, List.mem_append_right _ (by simp), rfl⟩
      · intro p hp
        rcases List.mem_append.1 hp with h | h
        · obtain ⟨ht, he, hd, hpr⟩ := hfields p h
          have hcond : ¬(r.teamId = p.1.1 ∧ r.eventId = p.1.2) := by
            intro ⟨h1, h2⟩
            apply hk
            have hkey : runKey r = p.1 := by
              have hpeta : p.1 = (p.1.1, p.1.2) := rfl
              rw [hpeta]
              simp [runKey, h1, h2]
            rw [hkey]
            exact List.mem_map_of_mem Prod.fst h
          refine ⟨ht, he, ?_, ?_⟩
          · rw [driverMax_append, if_neg (by tauto), hd]
          · rw [progMax_append, if_neg (by tauto), hpr]
        · rcases List.mem_singleton.1 h with rfl
          have hdz : driverMax rs r.teamId r.eventId = 0 :=
            driverMax_eq_zero (by intro r' hr' hc; exact hnorun r' hr' ⟨hc.1, hc.2.1⟩)
          have hpz : progMax rs r.teamId r.eventId = 0 :=
            progMax_eq_zero (by intro r' hr' hc; exact hnorun r' hr' ⟨hc.1, hc.2.1⟩)
          refine ⟨?_, ?_, ?_, ?_⟩
          · simp [applyRun_team_id, blankGroup, runKey]
          · simp [applyRun_event_id, blankGroup, runKey]
          · rw [applyRun_driver]
            show _ = driverMax (rs ++ [r]) r.teamId r.eventId
            rw [driverMax_append, hdz]
            by_cases hty : r.type = "driver" <;> simp [hty, blankGroup]
          · rw [applyRun_programming]
            show _ = progMax (rs ++ [r]) r.teamId r.eventId
            rw [progMax_append, hpz]
            by_cases hty : r.type = "programming" <;> simp [hty, blankGroup]

theorem firstIdx_append_of_found {runs : List SkillsRun} {k : Nat × Nat}
    (h : ∃ r ∈ runs, runKey r = k) (l : List SkillsRun) :
    firstIdx (runs ++ l) k = firstIdx runs k := by
  unfold firstIdx
  rw [List.findIdx_append]
  rw [if_pos]
  exact List.findIdx_lt_length.mpr (by
    obtain ⟨r, hr, hk⟩ := h
    exact ⟨r, hr, by simp [hk]⟩)

theorem firstIdx_lt_length {runs : List SkillsRun} {k : Nat × Nat}
    (h : ∃ r ∈ runs, runKey r = k) :
    firstIdx runs k < runs.length :=
  List.findIdx_lt_length.mpr (by
    obtain ⟨r, hr, hk⟩ := h
    exact ⟨r, hr, by simp [hk]⟩)

theorem firstIdx_append_self {runs : List SkillsRun} {r : SkillsRun}
    (h : ∀ r' ∈ runs, runKey r' ≠ runKey r) :
    firstIdx (runs ++ [r]) (runKey r) = runs.length := by
  unfold firstIdx
  rw [List.findIdx_append]
  rw [if_neg]
  · simp [List.findIdx_cons]
  · intro hlt
    obtain ⟨r', hr', hp⟩ := List.findIdx_lt_length.mp hlt
    exact h r' hr' (by simpa using hp)

theorem insertRun_update_keys (acc : List ((Nat × Nat) × TeamEventBest))
    (r : SkillsRun) :
    ((acc.map
      (fun p => if p.1 = runKey r then (p.1, applyRun r p.2) else p)).map
        Prod.fst) = acc.map Prod.fst := by
  rw [List.map_map]
  apply List.map_congr_left
  intro p _
  by_cases h : p.1 = runKey r <;> simp [h]

theorem teamEventGroups_key_order (runs : List SkillsRun) :
    ((teamEventGroups runs).map Prod.fst).Pairwise
      (fun k k' => firstIdx runs k < firstIdx runs k') := by
  induction runs using List.reverseRecOn with
  | nil => simp [teamEventGroups]
  | append_singleton rs r ih =>
    obtain ⟨hnd, hcov, hconv, hfields⟩ := teamEventGroups_spec rs
    rw [teamEventGroups_append]
    unfold insertRun
    by_cases hk : runKey r ∈ (teamEventGroups rs).map Prod.fst
    · rw [if_pos hk, insertRun_update_keys]
      refine ih.imp_of_mem ?_
      intro a b ha hb hab
      rw [firstIdx_append_of_found (hconv a ha) [r],
        firstIdx_append_of_found (hconv b hb) [r]]
      exact hab
    · rw [if_neg hk, List.map_append]
      rw [List.pairwise_append]
      have hnew : ∀ r' ∈ rs, runKey r' ≠ runKey r := by
        intro r' hr' hkey
        exact hk (hkey ▸ hcov r' hr')
      refine ⟨?_, by simp, ?_⟩
      · refine ih.imp_of_mem ?_
        intro a b ha hb hab
        rw [firstIdx_append_of_found (hconv a ha) [r],
          firstIdx_append_of_found (hconv b hb) [r]]
        exact hab
      · intro a ha b hb
        rcases List.mem_singleton.1 hb with rfl
        simp only [List.map_singleton, List.mem_singleton] at *
        rw [firstIdx_append_of_found (hconv a ha) [r],
          firstIdx_append_self hnew]
        exact firstIdx_lt_length (hconv a ha)

/-! ### Helper lemmas: the best-per-team pass -/

theorem insertBest_update_keys (acc : List (Nat × BestEntry)) (t : Nat)
    (b : BestEntry) :
    ((acc.map (fun q => if q.1 = t then (q.1, b) else q)).map Prod.fst) =
      acc.map Prod.fst := by
  rw [List.map_map]
  apply List.map_congr_left
  intro p _
  by_cases h : p.1 = t <;> simp [h]

theorem insertBest_of_none {acc : List (Nat × BestEntry)} {g : TeamEventBest}
    (h : acc.find? (fun p => decide (p.1 = g.team_id)) = none) :
    insertBest acc g = acc ++ [(g.team_id, toBest g)] := by
  unfold insertBest; rw [h]

theorem insertBest_of_some {acc : List (Nat × BestEntry)} {g : TeamEventBest}
    {p₀ : Nat × BestEntry}
    (h : acc.find? (fun p => decide (p.1 = g.team_id)) = some p₀) :
    insertBest acc g =
      if g.driver + g.programming > p₀.2.combined then
        acc.map (fun q => if q.1 = g.team_id then (q.1, toBest g) else q)
      else acc := by
  unfold insertBest; rw [h]

theorem bestFold_spec (gs : List TeamEventBest) :
    ((gs.foldl insertBest []).map Prod.fst).Nodup ∧
    (∀ p ∈ gs.foldl insertBest [],
      isFirstMax (gs.filter (fun g => decide (g.team_id = p.1))) p.2) ∧
    (∀ g ∈ gs, ∃ p ∈ gs.foldl insertBest [], p.1 = g.team_id) := by
  induction gs using List.reverseRecOn with
  | nil => simp
  | append_singleton gs g ih =>
    obtain ⟨hnd, hfm, hcov⟩ := ih
    rw [List.foldl_append, List.foldl_cons, List.foldl_nil]
    set acc := gs.foldl insertBest [] with hacc
    cases hfind : acc.find? (fun p => decide (p.1 = g.team_id)) with
    | none =>
      rw [insertBest_of_none hfind]
      have hnone : ∀ p ∈ acc, p.1 ≠ g.team_id := by
        intro p hp
        have := List.find?_eq_none.mp hfind p hp
        simpa using this
      have hfilnil :
          gs.filter (fun g2 => decide (g2.team_id = g.team_id)) = [] := by
        rw [List.filter_eq_nil_iff]
        intro g2 hg2 hpred
        obtain ⟨p, hp, hpk⟩ := hcov g2 hg2
        exact hnone p hp (by rw [hpk]; simpa using hpred)
      refine ⟨?_, ?_, ?_⟩
      · rw [List.map_append, List.nodup_append]
        refine ⟨hnd, by simp, ?_⟩
        intro a ha hb
        rcases List.mem_singleton.1 hb with rfl
        obtain ⟨p, hp, hpeq⟩ := List.mem_map.1 ha
        exact hnone p hp hpeq
      · intro p hp
        rcases List.mem_append.1 hp with h | h
        · have hne : g.team_id ≠ p.1 := fun hc => hnone p h hc.symm
          rw [List.filter_append]
          have hsing : [g].filter (fun g2 => decide (g2.team_id = p.1)) = [] := by
            simp [hne]
          rw [hsing, List.append_nil]
          exact hfm p h
        · have hp2 : p = (g.team_id, toBest g) := List.mem_singleton.1 h
          subst hp2
          rw [List.filter_append]
          show isFirstMax
            (gs.filter (fun g2 => decide (g2.team_id = g.team_id)) ++
              [g].filter (fun g2 => decide (g2.team_id = g.team_id))) (toBest g)
          rw [hfilnil]
          have hgsing : [g].filter (fun g2 => decide (g2.team_id = g.team_id)) = [g] := by
            simp
          rw [hgsing]
          exact ⟨[], g, [], by simp, rfl, by simp, by simp⟩
      · intro g2 hg2
        rcases List.mem_append.1 hg2 with h | h
        · obtain ⟨p, hp, hpk⟩ := hcov g2 h
          exact ⟨p, List.mem_append_left _ hp, hpk⟩
        · have hg2e : g2 = g := List.mem_singleton.1 h
          subst hg2e
          exact ⟨(g2.team_id, toBest g2), List.mem_append_right _ (by simp), rfl⟩
    | some p₀ =>
      rw [insertBest_of_some hfind]
      have hp₀mem : p₀ ∈ acc := List.mem_of_find?_eq_some hfind
      have hp₀key : p₀.1 = g.team_id := by
        have := List.find?_some hfind
        simpa using this
      have huniq : ∀ p ∈ acc, p.1 = g.team_id → p = p₀ := by
        intro p hp hpk
        exact List.inj_on_of_nodup_map hnd hp hp₀mem (by rw [hpk, hp₀key])
      by_cases hgt : g.driver + g.programming > p₀.2.combined
      · rw [if_pos hgt]
        refine ⟨?_, ?_, ?_⟩
        · rw [insertBest_update_keys]; exact hnd
        · intro p hp
          obtain ⟨q, hq, hqeq⟩ := List.mem_map.1 hp
          by_cases hqk : q.1 = g.team_id
          · rw [if_pos hqk] at hqeq
            subst hqeq
            rcases huniq q hq hqk with rfl
            obtain ⟨pre, g₀, post, hdec, hb, hpre, hpost⟩ := hfm q hq
            have hcombo : comb g₀ = q.2.combined := by
              rw [← hb]; rfl
            rw [List.filter_append]
            show isFirstMax
              (gs.filter (fun g2 => decide (g2.team_id = q.1)) ++
                [g].filter (fun g2 => decide (g2.team_id = q.1))) (toBest g)
            have hgsing : [g].filter (fun g2 => decide (g2.team_id = q.1)) = [g] := by
              simp [hqk]
            rw [hgsing, hdec]
            refine ⟨pre ++ g₀ :: post, g, [], by simp, rfl, ?_, by simp⟩
            intro g2 hg2
            have hq2 : q.2.combined < comb g := hgt
            rcases List.mem_append.1 hg2 with h | h
            · exact lt_trans (hpre g2 h) (hcombo ▸ hq2)
            · rcases List.mem_cons.1 h with rfl | h
              · exact hcombo ▸ hq2
              · exact lt_of_le_of_lt (hpost g2 h) (hcombo ▸ hq2)
          · rw [if_neg hqk] at hqeq
            subst hqeq
            rw [List.filter_append]
            have hgsing : [g].filter (fun g2 => decide (g2.team_id = q.1)) = [] := by
              simp
              intro hc
              exact hqk (by rw [hc])
            rw [hgsing, List.append_nil]
            exact hfm q hq
        · intro g2 hg2
          rcases List.mem_append.1 hg2 with h | h
          · obtain ⟨p, hp, hpk⟩ := hcov g2 h
            refine ⟨if p.1 = g.team_id then (p.1, toBest g) else p, ?_, ?_⟩
            · exact List.mem_map.2 ⟨p, hp, by split <;> rfl⟩
            · split <;> simpa using hpk
          · have hg2e : g2 = g := List.mem_singleton.1 h
            subst hg2e
            refine ⟨(p₀.1, toBest g2), ?_, hp₀key⟩
            exact List.mem_map.2 ⟨p₀, hp₀mem, by rw [if_pos hp₀key]⟩
      · rw [if_neg hgt]
        refine ⟨hnd, ?_, ?_⟩
        · intro p hp
          by_cases hpk : p.1 = g.team_id
          · rcases huniq p hp hpk with rfl
            obtain ⟨pre, g₀, post, hdec, hb, hpre, hpost⟩ := hfm p hp
            have hcombo : comb g₀ = p.2.combined := by
              rw [← hb]; rfl
            rw [List.filter_append]
            have hgsing : [g].filter (fun g2 => decide (g2.team_id = p.1)) = [g] := by
              simp [hpk]
            rw [hgsing, hdec]
            refine ⟨pre, g₀, post ++ [g], by simp, hb, hpre, ?_⟩
            intro g2 hg2
            rcases List.mem_append.1 hg2 with h | h
            · exact hpost g2 h
            · rcases List.mem_singleton.1 h with rfl
              rw [hcombo]
              exact Nat.le_of_not_lt hgt
          · rw [List.filter_append]
            have hgsing : [g].filter (fun g2 => decide (g2.team_id = p.1)) = [] := by
              simp
              intro hc
              exact hpk (by rw [hc])
            rw [hgsing, List.append_nil]
            exact hfm p hp
        · intro g2 hg2
          rcases List.mem_append.1 hg2 with h | h
          · exact hcov g2 h
          · have hg2e : g2 = g := List.mem_singleton.1 h
            subst hg2e
            exact ⟨p₀, hp₀mem, hp₀key⟩

/-! ### Helper lemmas: sorting attributes and membership transfer -/

theorem lbLE_trans : ∀ (a b c : BestEntry), lbLE a b → lbLE b c → lbLE a c := by
  intro a b c
  simp only [lbLE, decide_eq_true_eq]
  omega

theorem lbLE_total : ∀ (a b : BestEntry), lbLE a b || lbLE b a := by
  intro a b
  simp only [lbLE, Bool.or_eq_true, decide_eq_true_eq]
  omega

theorem stripEntry_withRank (i : Nat) (b : BestEntry) :
    stripEntry (withRank i b) = b := rfl

theorem mem_aggregate_iff {runs : List SkillsRun} {e : LeaderboardEntry} :
    e ∈ aggregate_skills runs ↔
      ∃ i, ∃ h : i < (sortedBoard runs).length,
        e = withRank (i + 1) ((sortedBoard runs).get ⟨i, h⟩) := by
  unfold aggregate_skills
  constructor
  · intro he
    obtain ⟨p, hp, hpe⟩ := List.mem_map.1 he
    have hg := List.mem_enum_iff_getElem?.1 hp
    rw [List.getElem?_eq_some] at hg
    obtain ⟨h, hget⟩ := hg
    exact ⟨p.1, h, by rw [← hpe, ← hget]; rfl⟩
  · rintro ⟨i, h, rfl⟩
    apply List.mem_map.2
    refine ⟨(i, (sortedBoard runs).get ⟨i, h⟩), ?_, rfl⟩
    apply List.mem_enum_iff_getElem?.2
    simp [List.getElem?_eq_getElem h]

theorem strip_mem_sortedBoard {runs : List SkillsRun} {e : LeaderboardEntry}
    (he : e ∈ aggregate_skills runs) : stripEntry e ∈ sortedBoard runs := by
  obtain ⟨i, h, rfl⟩ := mem_aggregate_iff.1 he
  rw [stripEntry_withRank]
  exact List.get_mem _ _ _

theorem strip_mem_best {runs : List SkillsRun} {e : LeaderboardEntry}
    (he : e ∈ aggregate_skills runs) :
    ∃ p ∈ bestPerTeam runs, p.2 = stripEntry e := by
  have hmem := strip_mem_sortedBoard he
  unfold sortedBoard at hmem
  rw [List.mem_mergeSort] at hmem
  exact List.mem_map.1 hmem

theorem bestPerTeam_chars {runs : List SkillsRun} {p : Nat × BestEntry}
    (hp : p ∈ bestPerTeam runs) :
    p.2.team_id = p.1 ∧
    p.2.combined = p.2.driver + p.2.programming ∧
    ∃ ev, p.2.driver = driverMax runs p.2.team_id ev ∧
      p.2.programming = progMax runs p.2.team_id ev := by
  obtain ⟨-, hfm, -⟩ := bestFold_spec ((teamEventGroups runs).map Prod.snd)
  obtain ⟨pre, g, post, hdec, hb, -, -⟩ := hfm p hp
  have hgfil : g ∈ ((teamEventGroups runs).map Prod.snd).filter
      (fun g2 => decide (g2.team_id = p.1)) := by
    rw [hdec]
    exact List.mem_append_right _ (List.mem_cons_self _ _)
  rw [List.mem_filter] at hgfil
  obtain ⟨hgmem, hgpred⟩ := hgfil
  have hgteam : g.team_id = p.1 := by simpa using hgpred
  obtain ⟨q, hq, hqg⟩ := List.mem_map.1 hgmem
  obtain ⟨-, -, -, hfields⟩ := teamEventGroups_spec runs
  obtain ⟨ht, he', hd, hpr⟩ := hfields q hq
  rw [hqg] at ht he' hd hpr
  refine ⟨?_, ?_, ?_⟩
  · rw [← hb]
    exact hgteam
  · rw [← hb]
    rfl
  · refine ⟨q.1.2, ?_, ?_⟩
    · rw [← hb]
      show g.driver = driverMax runs (toBest g).team_id q.1.2
      have : (toBest g).team_id = g.team_id := rfl
      rw [this, ht, hd]
    · rw [← hb]
      show g.programming = progMax runs (toBest g).team_id q.1.2
      have : (toBest g).team_id = g.team_id := rfl
      rw [this, ht, hpr]

/-- C1: every leaderboard entry's combined score is the sum of its
driver and programming scores, and those two scores are the maximum
driver-type and maximum programming-type scores of that team at one
single event of the input (0 when no run of that kind exists there). -/
theorem aggregate_combined_eq_driver_add_programming
    (runs : List SkillsRun) (e : LeaderboardEntry)
    (he : e ∈ aggregate_skills runs) :
    e.combined = e.driver + e.programming ∧
    ∃ ev, e.driver = driverMax runs e.team_id ev ∧
      e.programming = progMax runs e.team_id ev := by
  obtain ⟨p, hp, hps⟩ := strip_mem_best he
  obtain ⟨-, hcomb, ev, hd, hpr⟩ := bestPerTeam_chars hp
  rw [hps] at hcomb hd hpr
  exact ⟨hcomb, ev, hd, hpr⟩

/-- C2: for each team the entry comes from the first-encountered
(team, event) group attaining the team's maximum combined score: the
team's groups are listed in first-encounter order of the input, every
group before the chosen one is strictly worse, and no later group is
better. -/
theorem aggregate_selects_first_best_event
    (runs : List SkillsRun) (e : LeaderboardEntry)
    (he : e ∈ aggregate_skills runs) :
    (teamGroups runs e.team_id).Pairwise
      (fun g g' => firstIdx runs (g.team_id, g.event_id) <
        firstIdx runs (g'.team_id, g'.event_id)) ∧
    ∃ gsPre g gsPost,
      teamGroups runs e.team_id = gsPre ++ g :: gsPost ∧
      toBest g = stripEntry e ∧
      (∀ g' ∈ gsPre, comb g' < comb g) ∧
      (∀ g' ∈ gsPost, comb g' ≤ comb g) := by
  constructor
  · have korder := teamEventGroups_key_order runs
    rw [List.pairwise_map] at korder
    obtain ⟨-, -, -, hfields⟩ := teamEventGroups_spec runs
    have hpair : (teamEventGroups runs).Pairwise
        (fun p q => firstIdx runs (p.2.team_id, p.2.event_id) <
          firstIdx runs (q.2.team_id, q.2.event_id)) := by
      refine korder.imp_of_mem ?_
      intro p q hp hq hrel
      obtain ⟨htp, hep, -, -⟩ := hfields p hp
      obtain ⟨htq, heq, -, -⟩ := hfields q hq
      have hkp : (p.2.team_id, p.2.event_id) = p.1 := by
        rw [htp, hep]
      have hkq : (q.2.team_id, q.2.event_id) = q.1 := by
        rw [htq, heq]
      rw [hkp, hkq]
      exact hrel
    unfold teamGroups
    apply List.Pairwise.filter
    rw [List.pairwise_map]
    exact hpair
  · obtain ⟨p, hp, hps⟩ := strip_mem_best he
    obtain ⟨-, hfm, -⟩ := bestFold_spec ((teamEventGroups runs).map Prod.snd)
    have hiso := hfm p hp
    have hteam : e.team_id = p.1 := by
      have h1 := (bestPerTeam_chars hp).1
      rw [hps] at h1
      exact h1
    obtain ⟨pre, g, post, hdec, hb, hpre, hpost⟩ := hiso
    refine ⟨pre, g, post, ?_, ?_, hpre, hpost⟩
    · unfold teamGroups
      rw [hteam]
      exact hdec
    · rw [hb, hps]

/-- C3: the leaderboard is ordered by combined score descending with
ties broken by programming score descending; the sort is stable (a tied
pair keeps its pre-sort relative order); ranks are 1-based consecutive
positions in this order. -/
theorem aggregate_output_sorted_and_ranked (runs : List SkillsRun) :
    (aggregate_skills runs).Pairwise (fun a b =>
      b.combined < a.combined ∨
        (a.combined = b.combined ∧ b.programming ≤ a.programming)) ∧
    ((aggregate_skills runs).map LeaderboardEntry.rank =
      List.range' 1 (aggregate_skills runs).length) ∧
    (∀ a b : BestEntry, a.combined = b.combined → a.programming = b.programming →
      List.Sublist [a, b] ((bestPerTeam runs).map Prod.snd) →
      List.Sublist [a, b] (sortedBoard runs)) := by
  refine ⟨?_, ?_, ?_⟩
  · have hsorted : (sortedBoard runs).Pairwise (fun a b => lbLE a b) :=
      List.sorted_mergeSort lbLE_trans lbLE_total _
    have hprop : (sortedBoard runs).Pairwise (fun a b =>
        b.combined < a.combined ∨
          (a.combined = b.combined ∧ b.programming ≤ a.programming)) := by
      refine hsorted.imp ?_
      intro a b hab
      simpa [lbLE] using hab
    unfold aggregate_skills
    rw [List.pairwise_map]
    have henum : (sortedBoard runs).enum.Pairwise (fun p q =>
        q.2.combined < p.2.combined ∨
          (p.2.combined = q.2.combined ∧ q.2.programming ≤ p.2.programming)) := by
      have hmapsnd : (sortedBoard runs).enum.map Prod.snd = sortedBoard runs :=
        List.enumFrom_map_snd 0 _
      rw [← hmapsnd] at hprop
      rw [List.pairwise_map] at hprop
      exact hprop
    exact henum.imp (fun h => h)
  · unfold aggregate_skills
    rw [List.map_map, List.length_map]
    have hcomp : (fun p => (withRank (p.1 + 1) p.2).rank) =
        (fun p : Nat × BestEntry => p.1 + 1) := rfl
    show (sortedBoard runs).enum.map
      (LeaderboardEntry.rank ∘ fun p => withRank (p.1 + 1) p.2) = _
    have hfe : (LeaderboardEntry.rank ∘ fun p : Nat × BestEntry =>
        withRank (p.1 + 1) p.2) = (fun p : Nat × BestEntry => 1 + p.1) := by
      funext p
      show p.1 + 1 = 1 + p.1
      omega
    rw [hfe]
    have : (fun p : Nat × BestEntry => 1 + p.1) =
        ((fun x => 1 + x) ∘ Prod.fst) := rfl
    rw [this, ← List.map_map, List.enum_eq_enumFrom, List.enumFrom_map_fst,
      List.map_add_range', List.enumFrom_length]
  · intro a b h1 h2 hsub
    unfold sortedBoard
    apply List.pair_sublist_mergeSort lbLE_trans lbLE_total
    · simp [lbLE, h1, h2]
    · exact hsub

/-- C10: a run whose type is neither "driver" nor "programming" still
creates its (team, event) group, so a team all of whose runs have
unrecognized types appears on the leaderboard with zero scores. -/
theorem unrecognized_type_zero_scores (runs : List SkillsRun) (r : SkillsRun)
    (hr : r ∈ runs)
    (hall : ∀ r' ∈ runs, r'.teamId = r.teamId →
      r'.type ≠ "driver" ∧ r'.type ≠ "programming") :
    ∃ e ∈ aggregate_skills runs, e.team_id = r.teamId ∧
      e.driver = 0 ∧ e.programming = 0 ∧ e.combined = 0 := by
  obtain ⟨-, hcov, -, hfields⟩ := teamEventGroups_spec runs
  have hkey := hcov r hr
  obtain ⟨q, hq, hqk⟩ := List.mem_map.1 hkey
  have hqteam : q.2.team_id = r.teamId := by
    obtain ⟨ht, -, -, -⟩ := hfields q hq
    rw [ht, hqk]
    rfl
  obtain ⟨-, -, hbcov⟩ := bestFold_spec ((teamEventGroups runs).map Prod.snd)
  obtain ⟨p, hp, hpk⟩ := hbcov q.2 (List.mem_map_of_mem Prod.snd hq)
  obtain ⟨hpt, hpc, ev, hd, hpr⟩ := bestPerTeam_chars hp
  have hpteam : p.2.team_id = r.teamId := by
    rw [hpt, hpk, hqteam]
  have hdz : p.2.driver = 0 := by
    rw [hd, hpteam]
    apply driverMax_eq_zero
    intro r' hr' ⟨hc1, hc2, hc3⟩
    exact (hall r' hr' hc1).1 hc3
  have hpz : p.2.programming = 0 := by
    rw [hpr, hpteam]
    apply progMax_eq_zero
    intro r' hr' ⟨hc1, hc2, hc3⟩
    exact (hall r' hr' hc1).2 hc3
  have hmem : p.2 ∈ sortedBoard runs := by
    unfold sortedBoard
    rw [List.mem_mergeSort]
    exact List.mem_map_of_mem Prod.snd hp
  obtain ⟨⟨i, hi⟩, hget⟩ := List.mem_iff_get.1 hmem
  refine ⟨withRank (i + 1) ((sortedBoard runs).get ⟨i, hi⟩),
    mem_aggregate_iff.2 ⟨i, hi, rfl⟩, ?_⟩
  rw [hget]
  refine ⟨hpteam, hdz, hpz, ?_⟩
  show p.2.combined = 0
  rw [hpc, hdz, hpz]

/-! ### Helper lemmas: qualification filter -/

theorem bubbleLeaderboard_spec (q : List Nat) (ls : List LeaderboardEntry) :
    ∀ j : Nat,
      ((bubbleLeaderboard q ls j).map eraseBubble = ls.map eraseBubble) ∧
      (∀ e ∈ ls, e.team_id ∈ q → e ∈ bubbleLeaderboard q ls j) ∧
      ((bubbleLeaderboard q ls j).filter (fun t => decide (t.team_id ∉ q)) =
        ((nonQualified ls q).enumFrom j).map
          (fun p => { p.2 with bubble_rank := some (p.1 + 1) })) := by
  induction ls with
  | nil => intro j; simp [bubbleLeaderboard, nonQualified]
  | cons e rest ih =>
    intro j
    by_cases he : e.team_id ∈ q
    · obtain ⟨ih1, ih2, ih3⟩ := ih j
      unfold bubbleLeaderboard
      rw [if_pos he]
      refine ⟨?_, ?_, ?_⟩
      · simp only [List.map_cons, ih1]
      · intro e' he' hq'
        rcases List.mem_cons.1 he' with rfl | h
        · exact List.mem_cons_self _ _
        · exact List.mem_cons_of_mem _ (ih2 e' h hq')
      · rw [List.filter_cons]
        have hdec : (decide (e.team_id ∉ q)) = false := by simp [he]
        rw [hdec]
        have h2 : nonQualified (e :: rest) q = nonQualified rest q := by
          simp [nonQualified, he]
        rw [h2]
        simpa using ih3
    · obtain ⟨ih1, ih2, ih3⟩ := ih (j + 1)
      unfold bubbleLeaderboard
      rw [if_neg he]
      refine ⟨?_, ?_, ?_⟩
      · simp only [List.map_cons, ih1]
        rfl
      · intro e' he' hq'
        rcases List.mem_cons.1 he' with rfl | h
        · exact absurd hq' he
        · exact List.mem_cons_of_mem _ (ih2 e' h hq')
      · rw [List.filter_cons]
        have hdec :
            (decide (({ e with bubble_rank := some (j + 1) } :
              LeaderboardEntry).team_id ∉ q)) = true := by
          simp [he]
        rw [hdec]
        have h2 : nonQualified (e :: rest) q = e :: nonQualified rest q := by
          simp [nonQualified, he]
        rw [h2, List.enumFrom_cons]
        simp only [List.map_cons]
        exact congrArg (List.cons _) ih3

/-- C7: with an empty qualified set the bubble list carries exactly the
original leaderboard entries in order and every bubble rank equals the
original rank; with a qualified set covering all teams it is empty. -/
theorem bubble_filter_identity_and_empty (ls : List LeaderboardEntry)
    (hrank : ∀ i : Fin ls.length, (ls.get i).rank = i.1 + 1) :
    ((bubbleList ls []).map eraseBubble = ls.map eraseBubble) ∧
    (∀ b ∈ bubbleList ls [], b.bubble_rank = some b.rank) ∧
    (∀ qualified : List Nat, (∀ e ∈ ls, e.team_id ∈ qualified) →
      bubbleList ls qualified = []) := by
  have h0 : nonQualified ls [] = ls := by
    simp [nonQualified]
  refine ⟨?_, ?_, ?_⟩
  · unfold bubbleList
    rw [h0, List.map_map]
    have : ls.map eraseBubble = (ls.enum.map Prod.snd).map eraseBubble := by
      rw [List.enum_eq_enumFrom, List.enumFrom_map_snd]
    rw [this, List.map_map]
    apply List.map_congr_left
    intro p _
    rfl
  · intro b hb
    unfold bubbleList at hb
    rw [h0] at hb
    obtain ⟨p, hp, hpb⟩ := List.mem_map.1 hb
    have hg := List.mem_enum_iff_getElem?.1 hp
    rw [List.getElem?_eq_some] at hg
    obtain ⟨hlt, hget⟩ := hg
    have hr : p.2.rank = p.1 + 1 := by
      have := hrank ⟨p.1, hlt⟩
      rw [List.get_eq_getElem] at this
      rw [hget] at this
      exact this
    rw [← hpb]
    show some (p.1 + 1) = some _
    rw [show ({ p.2 with bubble_rank := some (p.1 + 1) } :
      LeaderboardEntry).rank = p.2.rank from rfl, hr]
  · intro qualified hq
    unfold bubbleList
    have : nonQualified ls qualified = [] := by
      unfold nonQualified
      rw [List.filter_eq_nil_iff]
      intro e he
      simp [hq e he]
    rw [this]
    rfl

/-- C8: resolving the active season errors exactly when the returned
season list is empty (or the data field is absent), and otherwise
returns the last element of the returned order. -/
theorem active_season_error_or_last :
    get_active_season none = Except.error "No active V5RC season found!" ∧
    get_active_season (some []) = Except.error "No active V5RC season found!" ∧
    ∀ (l : List Season) (h : l ≠ []),
      get_active_season (some l) = Except.ok (l.getLast h) := by
  refine ⟨rfl, rfl, ?_⟩
  intro l h
  unfold get_active_season
  simp [h]

/-- C9 counterexample: the Step-6 re-rank loop mutates the entries of
the already-built leaderboard (the `non_qualified` list aliases them),
so after the loop the leaderboard differs from its pre-filter state. -/
theorem filter_mutates_leaderboard_cex :
    leaderboardAfterFilter
      [⟨7, "7A", "E", 10, 20, 30, 1, none⟩] [] ≠
      [⟨7, "7A", "E", 10, 20, 30, 1, none⟩] := by
  decide

/-- C9 (amended): the only field the qualification filter writes is
`bubble_rank`: modulo that field the leaderboard is unchanged entry for
entry, entries of qualified teams are not touched at all, and the
bubble list is exactly the non-qualified slice of the post-filter
leaderboard. -/
theorem filter_only_sets_bubble_rank (ls : List LeaderboardEntry)
    (q : List Nat) :
    ((leaderboardAfterFilter ls q).map eraseBubble = ls.map eraseBubble) ∧
    (∀ e ∈ ls, e.team_id ∈ q → e ∈ leaderboardAfterFilter ls q) ∧
    ((leaderboardAfterFilter ls q).filter (fun t => decide (t.team_id ∉ q)) =
      bubbleList ls q) := by
  obtain ⟨h1, h2, h3⟩ := bubbleLeaderboard_spec q ls 0
  exact ⟨h1, h2, h3⟩

/-- C4 counterexample: three consecutive 429 responses exhaust the
3-iteration attempt loop — the 429 `continue` consumes attempts — and
`_get` then returns the empty dict instead of retrying further, so
rate-limit retries are neither unlimited nor exempt from the budget. -/
theorem rate_limit_retries_counted_cex :
    (apiGet (fun n => if n < 3 then HttpOutcome.rateLimited (some 5)
      else HttpOutcome.success (42 : Nat))).1 = GetOutcome.emptyDict ∧
    (apiGet (fun n => if n < 3 then HttpOutcome.rateLimited (some 5)
      else HttpOutcome.success (42 : Nat))).1 ≠ GetOutcome.ok 42 ∧
    (apiGet (fun n => if n < 3 then HttpOutcome.rateLimited (some 5)
      else HttpOutcome.success (42 : Nat))).2.requests = 3 := by
  decide

/-- C4 (amended): a 429 makes the client sleep the Retry-After value
(30 when the header is absent) and reissue the request, but each such
retry consumes one of the `MAX_RETRIES` loop iterations; after three
consecutive 429s `_get` returns the empty dict. -/
theorem rate_limit_waits_then_retries {α : Type} (script : Nat → HttpOutcome α)
    (w : Nat) (body : α) :
    (script 0 = HttpOutcome.rateLimited (some w) →
      script 1 = HttpOutcome.success body →
      apiGet script = (GetOutcome.ok body, ⟨2, 2, [w]⟩)) ∧
    (script 0 = HttpOutcome.rateLimited none →
      script 1 = HttpOutcome.success body →
      apiGet script = (GetOutcome.ok body, ⟨2, 2, [30]⟩)) ∧
    ((∀ n, n < MAX_RETRIES → script n = HttpOutcome.rateLimited (some w)) →
      apiGet script = (GetOutcome.emptyDict, ⟨3, 3, [w, w, w]⟩)) := by
  refine ⟨?_, ?_, ?_⟩
  · intro h0 h1
    simp [apiGet, MAX_RETRIES, getAux, h0, h1]
  · intro h0 h1
    simp [apiGet, MAX_RETRIES, getAux, h0, h1]
  · intro h
    have h0 := h 0 (by norm_num [MAX_RETRIES])
    have h1 := h 1 (by norm_num [MAX_RETRIES])
    have h2 := h 2 (by norm_num [MAX_RETRIES])
    simp [apiGet, MAX_RETRIES, getAux, h0, h1, h2]

/-- C5: a non-429 request failure is retried with a `2 ^ attempt`
backoff sleep, up to 3 attempts in total; when all three fail the
exception propagates to the caller. -/
theorem transient_failure_retry_policy {α : Type}
    (script : Nat → HttpOutcome α) (body : α) :
    ((∀ n, n < MAX_RETRIES → script n = HttpOutcome.failure) →
      apiGet script = (GetOutcome.raised, ⟨3, 3, [2 ^ 0, 2 ^ 1]⟩)) ∧
    (script 0 = HttpOutcome.failure → script 1 = HttpOutcome.success body →
      apiGet script = (GetOutcome.ok body, ⟨2, 2, [2 ^ 0]⟩)) ∧
    (script 0 = HttpOutcome.failure → script 1 = HttpOutcome.failure →
      script 2 = HttpOutcome.success body →
      apiGet script = (GetOutcome.ok body, ⟨3, 3, [2 ^ 0, 2 ^ 1]⟩)) := by
  refine ⟨?_, ?_, ?_⟩
  · intro h
    have h0 := h 0 (by norm_num [MAX_RETRIES])
    have h1 := h 1 (by norm_num [MAX_RETRIES])
    have h2 := h 2 (by norm_num [MAX_RETRIES])
    simp [apiGet, MAX_RETRIES, getAux, h0, h1, h2]
  · intro h0 h1
    simp [apiGet, MAX_RETRIES, getAux, h0, h1]
  · intro h0 h1 h2
    simp [apiGet, MAX_RETRIES, getAux, h0, h1, h2]

theorem getAllPagesAux_spec {α : Type} (server : Nat → ApiPage α) (N : Nat)
    (totalF : Nat → Option Nat)
    (hmeta : ∀ p, (server p).meta = some ⟨some p, some N, totalF p⟩) :
    ∀ fuel p acc, 1 ≤ p → p ≤ N → N < p + fuel →
      getAllPagesAux server fuel p acc =
        some (acc ++ (List.range' p (N + 1 - p)).flatMap (pageData server)) := by
  intro fuel
  induction fuel with
  | zero =>
    intro p acc h1 h2 h3
    omega
  | succ fuel ih =>
    intro p acc h1 h2 h3
    unfold getAllPagesAux
    simp only [hmeta p, Option.getD_some]
    by_cases hpn : p ≥ N
    · have hpe : p = N := Nat.le_antisymm h2 hpn
      rw [if_pos hpn]
      subst hpe
      have hr : p + 1 - p = 1 := by omega
      rw [hr]
      simp [List.range', pageData]
    · rw [if_neg hpn]
      rw [ih (p + 1) _ (by omega) (by omega) (by omega)]
      have hr : N + 1 - p = (N + 1 - (p + 1)) + 1 := by omega
      rw [hr, List.range'_succ]
      simp [pageData]

/-- C6: when every response reports `current_page` equal to the
requested page and a fixed `last_page = N` (with an arbitrary `total`),
pagination returns the concatenation of exactly the `N` page payloads
in server order; a page with an absent `data` field contributes `[]`. -/
theorem pagination_concat_pages {α : Type} (server : Nat → ApiPage α)
    (N fuel : Nat) (totalF : Nat → Option Nat)
    (hmeta : ∀ p, (server p).meta = some ⟨some p, some N, totalF p⟩)
    (hN : 1 ≤ N) (hfuel : N ≤ fuel) :
    getAllPages server fuel =
      some ((List.range' 1 N).flatMap (pageData server)) := by
  unfold getAllPages
  have h := getAllPagesAux_spec server N totalF hmeta fuel 1 [] le_rfl hN
    (by omega)
  simpa using h

/-- C1 witness at the "200B" scenario. -/
theorem c1_witness :
    aggregate_skills c1Runs = [⟨200, "200B", "E1", 0, 70, 70, 1, none⟩] ∧
    ((70 : Nat) = 0 + 70 ∧
      ∃ ev, (0 : Nat) = driverMax c1Runs 200 ev ∧
        (70 : Nat) = progMax c1Runs 200 ev) := by
  have hs : sortedBoard c1Runs = [⟨200, "200B", "E1", 0, 70, 70⟩] := by
    unfold sortedBoard
    rw [show (bestPerTeam c1Runs).map Prod.snd =
      [⟨200, "200B", "E1", 0, 70, 70⟩] from by decide]
    simp
  have hagg : aggregate_skills c1Runs =
      [⟨200, "200B", "E1", 0, 70, 70, 1, none⟩] := by
    unfold aggregate_skills
    rw [hs]
    decide
  exact ⟨hagg,
    aggregate_combined_eq_driver_add_programming c1Runs
      ⟨200, "200B", "E1", 0, 70, 70, 1, none⟩ (by rw [hagg]; decide)⟩

/-- C2 witness at the "100A" two-event scenario: the entry comes from
event E1 with combined 90. -/
theorem c2_witness :
    aggregate_skills c2Runs = [⟨100, "100A", "E1", 50, 40, 90, 1, none⟩] ∧
    ((teamGroups c2Runs 100).Pairwise
      (fun g g' => firstIdx c2Runs (g.team_id, g.event_id) <
        firstIdx c2Runs (g'.team_id, g'.event_id)) ∧
    ∃ gsPre g gsPost,
      teamGroups c2Runs 100 = gsPre ++ g :: gsPost ∧
      toBest g = ⟨100, "100A", "E1", 50, 40, 90⟩ ∧
      (∀ g' ∈ gsPre, comb g' < comb g) ∧
      (∀ g' ∈ gsPost, comb g' ≤ comb g)) := by
  have hs : sortedBoard c2Runs = [⟨100, "100A", "E1", 50, 40, 90⟩] := by
    unfold sortedBoard
    rw [show (bestPerTeam c2Runs).map Prod.snd =
      [⟨100, "100A", "E1", 50, 40, 90⟩] from by decide]
    simp
  have hagg : aggregate_skills c2Runs =
      [⟨100, "100A", "E1", 50, 40, 90, 1, none⟩] := by
    unfold aggregate_skills
    rw [hs]
    decide
  exact ⟨hagg,
    aggregate_selects_first_best_event c2Runs
      ⟨100, "100A", "E1", 50, 40, 90, 1, none⟩ (by rw [hagg]; decide)⟩

/-- C3 witness: on a three-team input with a tie on both sorting keys
(teams "A" and "C"), the output is pairwise ordered, the first rank is
1, and the tied pair keeps its pre-sort order through the sort. -/
theorem c3_witness :
    ((aggregate_skills c3Runs).Pairwise (fun a b =>
      b.combined < a.combined ∨
        (a.combined = b.combined ∧ b.programming ≤ a.programming))) ∧
    ((aggregate_skills c3Runs).map LeaderboardEntry.rank =
      List.range' 1 (aggregate_skills c3Runs).length) ∧
    List.Sublist [⟨1, "A", "E1", 50, 0, 50⟩, ⟨3, "C", "E2", 50, 0, 50⟩]
      (sortedBoard c3Runs) ∧
    sortedBoard c3Runs =
      [⟨2, "B", "E1", 0, 50, 50⟩, ⟨1, "A", "E1", 50, 0, 50⟩,
       ⟨3, "C", "E2", 50, 0, 50⟩] := by
  have hb : (bestPerTeam c3Runs).map Prod.snd =
      [⟨1, "A", "E1", 50, 0, 50⟩, ⟨2, "B", "E1", 0, 50, 50⟩,
       ⟨3, "C", "E2", 50, 0, 50⟩] := by decide
  have hs : sortedBoard c3Runs =
      [⟨2, "B", "E1", 0, 50, 50⟩, ⟨1, "A", "E1", 50, 0, 50⟩,
       ⟨3, "C", "E2", 50, 0, 50⟩] := by
    unfold sortedBoard
    rw [hb]
    simp [List.mergeSort, lbLE]
  refine ⟨(aggregate_output_sorted_and_ranked c3Runs).1,
    (aggregate_output_sorted_and_ranked c3Runs).2.1,
    (aggregate_output_sorted_and_ranked c3Runs).2.2
      ⟨1, "A", "E1", 50, 0, 50⟩ ⟨3, "C", "E2", 50, 0, 50⟩ rfl rfl
      (by rw [hb]
          exact List.Sublist.cons₂ _ (List.Sublist.cons _
            (List.Sublist.cons₂ _ List.Sublist.slnil))),
    hs⟩

/-- C4 witness: one 429 with Retry-After 5 produces exactly one wait of
5 seconds before the identical request is reissued and succeeds; three
consecutive 429s exhaust the loop. -/
theorem c4_witness :
    apiGet (fun n => if n = 0 then HttpOutcome.rateLimited (some 5)
        else HttpOutcome.success (42 : Nat)) =
      (GetOutcome.ok 42, ⟨2, 2, [5]⟩) ∧
    apiGet (fun n => if n = 0 then HttpOutcome.rateLimited none
        else HttpOutcome.success (8 : Nat)) =
      (GetOutcome.ok 8, ⟨2, 2, [30]⟩) ∧
    apiGet (fun _ => (HttpOutcome.rateLimited (some 7) : HttpOutcome Nat)) =
      (GetOutcome.emptyDict, ⟨3, 3, [7, 7, 7]⟩) :=
  ⟨(rate_limit_waits_then_retries _ 5 42).1 rfl rfl,
   (rate_limit_waits_then_retries _ 0 (8 : Nat)).2.1 rfl rfl,
   (rate_limit_waits_then_retries _ 7 (42 : Nat)).2.2 (fun _ _ => rfl)⟩

/-- C5 witness: three straight failures raise after backoffs of 1 and 2
seconds; a failure followed by success recovers after one 1-second
backoff. -/
theorem c5_witness :
    apiGet (fun _ => (HttpOutcome.failure : HttpOutcome Nat)) =
      (GetOutcome.raised, ⟨3, 3, [2 ^ 0, 2 ^ 1]⟩) ∧
    apiGet (fun n => if n = 0 then HttpOutcome.failure
        else HttpOutcome.success (7 : Nat)) =
      (GetOutcome.ok 7, ⟨2, 2, [2 ^ 0]⟩) ∧
    apiGet (fun n => if n < 2 then HttpOutcome.failure
        else HttpOutcome.success (9 : Nat)) =
      (GetOutcome.ok 9, ⟨3, 3, [2 ^ 0, 2 ^ 1]⟩) :=
  ⟨(transient_failure_retry_policy _ (0 : Nat)).1 (fun _ _ => rfl),
   (transient_failure_retry_policy _ (7 : Nat)).2.1 rfl rfl,
   (transient_failure_retry_policy _ (9 : Nat)).2.2 rfl rfl rfl⟩

/-- C6 witness: a two-page server whose second page has no data field
and whose total is wrong (999) still yields exactly the two payloads. -/
theorem c6_witness :
    getAllPages c6Server 5 =
      some ((List.range' 1 2).flatMap (pageData c6Server)) ∧
    (List.range' 1 2).flatMap (pageData c6Server) = [10, 20] :=
  ⟨pagination_concat_pages c6Server 2 5 (fun _ => some 999) (fun _ => rfl)
      (by norm_num) (by norm_num), by decide⟩

/-- C7 witness on a two-entry leaderboard. -/
theorem c7_witness :
    ((bubbleList c7Board []).map eraseBubble = c7Board.map eraseBubble) ∧
    (∀ b ∈ bubbleList c7Board [], b.bubble_rank = some b.rank) ∧
    bubbleList c7Board [1, 2] = [] :=
  ⟨(bubble_filter_identity_and_empty c7Board (by decide)).1,
   (bubble_filter_identity_and_empty c7Board (by decide)).2.1,
   (bubble_filter_identity_and_empty c7Board (by decide)).2.2 [1, 2] (by decide)⟩

/-- C8 witness: two active seasons — the later (last) one is chosen. -/
theorem c8_witness :
    get_active_season (some [⟨1, "2023-24"⟩, ⟨2, "2024-25"⟩]) =
      Except.ok (([⟨1, "2023-24"⟩, ⟨2, "2024-25"⟩] :
        List Season).getLast (by decide)) ∧
    (([⟨1, "2023-24"⟩, ⟨2, "2024-25"⟩] : List Season).getLast (by decide) =
      ⟨2, "2024-25"⟩) :=
  ⟨active_season_error_or_last.2.2 _ (by decide), by decide⟩

/-- C9 witness: with team 1 qualified, the post-filter leaderboard
agrees with the original modulo bubble_rank, the qualified entry is
untouched, and the bubble list is the non-qualified slice. -/
theorem c9_witness :
    ((leaderboardAfterFilter c9Board [1]).map eraseBubble =
      c9Board.map eraseBubble) ∧
    ((⟨1, "A", "E", 10, 0, 10, 1, none⟩ : LeaderboardEntry) ∈
      leaderboardAfterFilter c9Board [1]) ∧
    ((leaderboardAfterFilter c9Board [1]).filter
        (fun t => decide (t.team_id ∉ [1])) = bubbleList c9Board [1]) :=
  ⟨(filter_only_sets_bubble_rank c9Board [1]).1,
   (filter_only_sets_bubble_rank c9Board [1]).2.1 _ (by decide) (by decide),
   (filter_only_sets_bubble_rank c9Board [1]).2.2⟩

/-- C10 witness: a single run of unrecognized type "mixed" yields a
leaderboard entry with all-zero scores. -/
theorem c10_witness :
    (⟨300, "300C", 1, "E1", "mixed", 55⟩ : SkillsRun) ∈ c10Runs ∧
    ∃ e ∈ aggregate_skills c10Runs, e.team_id = 300 ∧
      e.driver = 0 ∧ e.programming = 0 ∧ e.combined = 0 :=
  ⟨by decide, unrecognized_type_zero_scores c10Runs
    ⟨300, "300C", 1, "E1", "mixed", 55⟩ (by decide) (by decide)⟩
